import Mathlib

/-!
Shallow embedding of the risp expression-language interpreter
(`src/lib.rs`, `src/impls.rs`, `src/bin/rec.rs`).

The Rust evaluator `eval(ast: AST, env: &mut HashMap<String, Object>) -> Object`
is modelled as a fuel-indexed state-passing function
`eval : Nat → AST → Env → Except EvalErr (Object × Env)`:

* the mutable environment becomes explicit state threading, `HashMap` becomes
  an association list with `HashMap`-faithful operations (`envGet` is lookup,
  `envInsert` replaces an existing binding, `envExtend` inserts every pair of
  a list in order, replacing on key collision exactly as `HashMap::extend`
  and `collect` do);
* every panic site of the source (`unimplemented` and explicit aborts)
  becomes a distinct `EvalErr` constructor, named after the spec's error
  taxonomy, each standing for exactly one failure point of the source;
* Rust's unbounded recursion becomes fuel: `.error .outOfFuel` marks fuel
  exhaustion, never a behaviour of the source; `usize` is modelled as `Nat`
  with the source's underflow abort made explicit in `Minus`.
-/

namespace Risp

/-- Expression tree, mirroring `enum AST` of `src/lib.rs`. -/
inductive AST where
  | Num : Nat → AST
  | Add : AST → AST → AST
  | Minus : AST → AST → AST
  | Bool : Bool → AST
  | If : AST → AST → AST → AST
  | Equal : AST → AST → AST
  | Define : String → AST → AST
  | Ident : String → AST
  | Function : List String → AST → AST
  | Apply : AST → List AST → AST

mutual

/-- Structural equality on `AST`, mirroring the derived `PartialEq` of
`src/lib.rs` (field-by-field, lists compared pointwise). -/
def astBeq : AST → AST → Bool
  | .Num a, .Num b => a == b
  | .Add l1 r1, .Add l2 r2 => astBeq l1 l2 && astBeq r1 r2
  | .Minus l1 r1, .Minus l2 r2 => astBeq l1 l2 && astBeq r1 r2
  | .Bool a, .Bool b => a == b
  | .If c1 t1 e1, .If c2 t2 e2 =>
      astBeq c1 c2 && (astBeq t1 t2 && astBeq e1 e2)
  | .Equal l1 r1, .Equal l2 r2 => astBeq l1 l2 && astBeq r1 r2
  | .Define n1 v1, .Define n2 v2 => n1 == n2 && astBeq v1 v2
  | .Ident a, .Ident b => a == b
  | .Function p1 b1, .Function p2 b2 => p1 == p2 && astBeq b1 b2
  | .Apply f1 a1, .Apply f2 a2 => astBeq f1 f2 && astBeqs a1 a2
  | _, _ => false

/-- Pointwise structural equality on argument lists. -/
def astBeqs : List AST → List AST → Bool
  | [], [] => true
  | a :: as, b :: bs => astBeq a b && astBeqs as bs
  | _, _ => false

end

mutual

def eq_of_astBeq : (a b : AST) → astBeq a b = true → a = b
  | .Num a, .Num b, h => by
      simp only [astBeq, beq_iff_eq] at h; rw [h]
  | .Add l1 r1, .Add l2 r2, h => by
      simp only [astBeq, Bool.and_eq_true] at h
      rw [eq_of_astBeq l1 l2 h.1, eq_of_astBeq r1 r2 h.2]
  | .Minus l1 r1, .Minus l2 r2, h => by
      simp only [astBeq, Bool.and_eq_true] at h
      rw [eq_of_astBeq l1 l2 h.1, eq_of_astBeq r1 r2 h.2]
  | .Bool a, .Bool b, h => by
      simp only [astBeq, beq_iff_eq] at h; rw [h]
  | .If c1 t1 e1, .If c2 t2 e2, h => by
      simp only [astBeq, Bool.and_eq_true] at h
      rw [eq_of_astBeq c1 c2 h.1, eq_of_astBeq t1 t2 h.2.1,
        eq_of_astBeq e1 e2 h.2.2]
  | .Equal l1 r1, .Equal l2 r2, h => by
      simp only [astBeq, Bool.and_eq_true] at h
      rw [eq_of_astBeq l1 l2 h.1, eq_of_astBeq r1 r2 h.2]
  | .Define n1 v1, .Define n2 v2, h => by
      simp only [astBeq, Bool.and_eq_true, beq_iff_eq] at h
      rw [h.1, eq_of_astBeq v1 v2 h.2]
  | .Ident a, .Ident b, h => by
      simp only [astBeq, beq_iff_eq] at h; rw [h]
  | .Function p1 b1, .Function p2 b2, h => by
      simp only [astBeq, Bool.and_eq_true, beq_iff_eq] at h
      rw [h.1, eq_of_astBeq b1 b2 h.2]
  | .Apply f1 a1, .Apply f2 a2, h => by
      simp only [astBeq, Bool.and_eq_true] at h
      rw [eq_of_astBeq f1 f2 h.1, eq_of_astBeqs a1 a2 h.2]

def eq_of_astBeqs : (as bs : List AST) → astBeqs as bs = true → as = bs
  | [], [], _ => rfl
  | a :: as, b :: bs, h => by
      simp only [astBeqs, Bool.and_eq_true] at h
      rw [eq_of_astBeq a b h.1, eq_of_astBeqs as bs h.2]
  | [], _ :: _, h => by simp [astBeqs] at h
  | _ :: _, [], h => by simp [astBeqs] at h

end

mutual

def astBeq_refl : (a : AST) → astBeq a a = true
  | .Num _ => by simp [astBeq]
  | .Add l r => by simp [astBeq, astBeq_refl l, astBeq_refl r]
  | .Minus l r => by simp [astBeq, astBeq_refl l, astBeq_refl r]
  | .Bool _ => by simp [astBeq]
  | .If c t e => by simp [astBeq, astBeq_refl c, astBeq_refl t, astBeq_refl e]
  | .Equal l r => by simp [astBeq, astBeq_refl l, astBeq_refl r]
  | .Define _ v => by simp [astBeq, astBeq_refl v]
  | .Ident _ => by simp [astBeq]
  | .Function _ b => by simp [astBeq, astBeq_refl b]
  | .Apply f as => by simp [astBeq, astBeq_refl f, astBeqs_refl as]

def astBeqs_refl : (as : List AST) → astBeqs as as = true
  | [] => rfl
  | a :: as => by simp [astBeqs, astBeq_refl a, astBeqs_refl as]

end

instance : DecidableEq AST := fun a b =>
  if h : astBeq a b = true then isTrue (eq_of_astBeq a b h)
  else isFalse (fun he => h (he ▸ astBeq_refl a))

/-- Runtime value, mirroring `enum Object` of `src/lib.rs`. -/
inductive Object where
  | Num : Nat → Object
  | Bool : Bool → Object
  | Function : List String → AST → Object
deriving DecidableEq

/-- Evaluation failure; each constructor stands for one failure point of the
source (`outOfFuel` is the fuel artefact standing for unbounded recursion). -/
inductive EvalErr where
  | typeMismatch : EvalErr
  | unboundIdentifier : String → EvalErr
  | notCallable : EvalErr
  | numericUnderflow : EvalErr
  | outOfFuel : EvalErr
deriving DecidableEq

deriving instance DecidableEq for Except

/-- The environment: `HashMap<String, Object>` modelled as an association
list without duplicate keys. -/
abbrev Env := List (String × Object)

/-- Lookup, mirroring `HashMap::get`: the value bound to `k`, if any. -/
def envGet : Env → String → Option Object
  | [], _ => none
  | (k', v) :: rest, k => if k' = k then some v else envGet rest k

/-- Insertion, mirroring `HashMap::insert`: replace an existing binding of
`k`, or append a new one. -/
def envInsert : Env → String → Object → Env
  | [], k, v => [(k, v)]
  | (k', v') :: rest, k, v =>
      if k' = k then (k, v) :: rest else (k', v') :: envInsert rest k v

/-- Extension, mirroring `HashMap::extend` (also `collect` when the base is
empty): insert every pair in order; a pair whose key is already present
replaces the old value. -/
def envExtend (e : Env) (items : List (String × Object)) : Env :=
  items.foldl (fun acc kv => envInsert acc kv.1 kv.2) e

/-- The call environment built by the `Apply` arm of `eval` in `src/lib.rs`:
`params.zip(args_val).collect()` followed by `deep_env.extend(env.clone())`. -/
def callEnv (params : List String) (argVals : List Object) (env : Env) : Env :=
  envExtend (envExtend [] (params.zip argVals)) env

/-- Sequential evaluation of argument expressions, each against (a clone of)
the same caller environment `env`, mutations discarded; the first failure
propagates. `ev` is the evaluator at the current fuel. -/
def evalArgsWith (ev : AST → Env → Except EvalErr (Object × Env)) :
    List AST → Env → Except EvalErr (List Object)
  | [], _ => .ok []
  | a :: rest, env =>
      match ev a env with
      | .error e => .error e
      | .ok (v, _) =>
          match evalArgsWith ev rest env with
          | .error e => .error e
          | .ok vs => .ok (v :: vs)

/-- Fuel-indexed embedding of `eval` from `src/lib.rs`.  The `Apply` arm
mirrors the source's lazy `args_val` iterator: the callee is evaluated first
(on a clone of `env`), then `params.into_iter().zip(args_val).collect()`
drives the iterator, evaluating exactly the first `params.length` argument
expressions (each on a clone of `env`); `deep_env.extend(env.clone())` then
inserts every caller binding, replacing same-named parameter bindings; the
body is evaluated in that call environment and the caller's `env` is
returned unchanged. -/
def eval : Nat → AST → Env → Except EvalErr (Object × Env)
  | 0, _, _ => .error .outOfFuel
  | _ + 1, .Num v, env => .ok (.Num v, env)
  | _ + 1, .Bool b, env => .ok (.Bool b, env)
  | fuel + 1, .Add l r, env =>
      match eval fuel l env with
      | .error e => .error e
      | .ok (lv, env1) =>
          match eval fuel r env1 with
          | .error e => .error e
          | .ok (rv, env2) =>
              match lv, rv with
              | .Num a, .Num b => .ok (.Num (a + b), env2)
              | _, _ => .error .typeMismatch
  | fuel + 1, .Minus l r, env =>
      match eval fuel l env with
      | .error e => .error e
      | .ok (lv, env1) =>
          match eval fuel r env1 with
          | .error e => .error e
          | .ok (rv, env2) =>
              match lv, rv with
              | .Num a, .Num b =>
                  if a < b then .error .numericUnderflow
                  else .ok (.Num (a - b), env2)
              | _, _ => .error .typeMismatch
  | fuel + 1, .If c t e, env =>
      match eval fuel c env with
      | .error err => .error err
      | .ok (.Bool true, env1) => eval fuel t env1
      | .ok (.Bool false, env1) => eval fuel e env1
      | .ok (.Num v, env1) =>
          if v ≠ 0 then eval fuel t env1 else eval fuel e env1
      | .ok (.Function _ _, _) => .error .typeMismatch
  | fuel + 1, .Equal l r, env =>
      match eval fuel l env with
      | .error e => .error e
      | .ok (lv, env1) =>
          match eval fuel r env1 with
          | .error e => .error e
          | .ok (rv, env2) => .ok (.Bool (decide (lv = rv)), env2)
  | fuel + 1, .Define name value, env =>
      match eval fuel value env with
      | .error e => .error e
      | .ok (v, env1) => .ok (v, envInsert env1 name v)
  | _ + 1, .Ident id, env =>
      match envGet env id with
      | some obj => .ok (obj, env)
      | none => .error (.unboundIdentifier id)
  | _ + 1, .Function params body, env => .ok (.Function params body, env)
  | fuel + 1, .Apply fnLit args, env =>
      match eval fuel fnLit env with
      | .error e => .error e
      | .ok (fnObj, _) =>
          match fnObj with
          | .Function params body =>
              match evalArgsWith (eval fuel) (args.take params.length) env with
              | .error e => .error e
              | .ok argVals =>
                  match eval fuel body (callEnv params argVals env) with
                  | .error e => .error e
                  | .ok (v, _) => .ok (v, env)
          | _ => .error .notCallable

/-- Whether an `Object` is a `Num` (the only operand kind `Add`/`Minus`
accept in `src/impls.rs`). -/
def isNum : Object → Bool
  | .Num _ => true
  | _ => false

/-- Body of the recursive `sum` function built by `src/bin/rec.rs`:
`(If (== n 1) 1 (+ n (Apply sum (- n 1))))`. -/
def sumBody : AST :=
  .If (.Equal (.Ident "n") (.Num 1)) (.Num 1)
    (.Add (.Ident "n") (.Apply (.Ident "sum") [.Minus (.Ident "n") (.Num 1)]))

/-- The function object the `sum` definition of `src/bin/rec.rs` evaluates
to. -/
def sumFn : Object := .Function ["n"] sumBody

/-- The environment after `(Define sum (Func (n) ...))` in `src/bin/rec.rs`. -/
def sumEnv : Env := [("sum", sumFn)]

/-- The call environment every recursive activation of `sum`'s body runs in
once `sum` has been applied to `100`: the parameter binding is overwritten
back to `100` by the caller's environment on every recursive call. -/
def sumLoopEnv : Env := [("n", .Num 100), ("sum", sumFn)]

/-!
Environment lemmas: how `envGet` interacts with `envInsert` and `envExtend`.
-/

theorem envGet_envInsert_self (e : Env) (k : String) (v : Object) :
    envGet (envInsert e k v) k = some v := by
  induction e with
  | nil => simp [envInsert, envGet]
  | cons kv rest ih =>
      obtain ⟨k', v'⟩ := kv
      by_cases h : k' = k
      · simp [envInsert, h, envGet]
      · simp [envInsert, h, envGet, ih]

theorem envGet_envInsert_ne (e : Env) (k k' : String) (v : Object)
    (h : k' ≠ k) : envGet (envInsert e k v) k' = envGet e k' := by
  induction e with
  | nil => simp [envInsert, envGet, Ne.symm h]
  | cons kv rest ih =>
      obtain ⟨k1, v1⟩ := kv
      by_cases h1 : k1 = k
      · subst h1
        have hne : k1 ≠ k' := Ne.symm h
        simp [envInsert, envGet, hne]
      · simp only [envInsert, if_neg h1]
        by_cases h2 : k1 = k'
        · simp [envGet, h2]
        · simp [envGet, h2, ih]

theorem envGet_envExtend_not_mem (items : List (String × Object)) :
    ∀ (e : Env) (k : String), k ∉ items.map Prod.fst →
      envGet (envExtend e items) k = envGet e k := by
  induction items with
  | nil => intro e k _; rfl
  | cons kv rest ih =>
      intro e k hk
      obtain ⟨k1, v1⟩ := kv
      simp only [List.map_cons, List.mem_cons] at hk
      push_neg at hk
      have hstep : envExtend e ((k1, v1) :: rest)
          = envExtend (envInsert e k1 v1) rest := rfl
      rw [hstep, ih (envInsert e k1 v1) k hk.2,
        envGet_envInsert_ne _ _ _ _ hk.1]

theorem envGet_envExtend (items : List (String × Object)) :
    ∀ (e : Env) (k : String), (items.map Prod.fst).Nodup →
      envGet (envExtend e items) k =
        match envGet items k with
        | some v => some v
        | none => envGet e k := by
  induction items with
  | nil => intro e k _; rfl
  | cons kv rest ih =>
      intro e k hnd
      obtain ⟨k1, v1⟩ := kv
      simp only [List.map_cons, List.nodup_cons] at hnd
      have hstep : envExtend e ((k1, v1) :: rest)
          = envExtend (envInsert e k1 v1) rest := rfl
      rw [hstep, ih (envInsert e k1 v1) k hnd.2]
      by_cases h : k1 = k
      · subst h
        have hrest : envGet rest k1 = none := by
          have hmem := hnd.1
          clear ih hstep hnd
          induction rest with
          | nil => rfl
          | cons kv2 rest2 ih2 =>
              obtain ⟨k2, v2⟩ := kv2
              simp only [List.map_cons, List.mem_cons] at hmem
              push_neg at hmem
              have hne : k2 ≠ k1 := fun hh => hmem.1 hh.symm
              simp [envGet, hne, ih2 hmem.2]
        simp [hrest, envGet, envGet_envInsert_self]
      · simp [envGet, h, envGet_envInsert_ne _ _ _ _ (fun hh => h hh.symm)]

theorem not_mem_zip_keys (p : String) :
    ∀ (ps : List String) (vs : List Object), p ∉ ps.take vs.length →
      p ∉ (ps.zip vs).map Prod.fst
  | [], vs, h => by simp
  | p1 :: ps, [], h => by simp
  | p1 :: ps, v1 :: vs, h => by
      simp only [List.length_cons, List.take_succ_cons, List.mem_cons] at h
      push_neg at h
      simp only [List.zip_cons_cons, List.map_cons, List.mem_cons]
      push_neg
      exact ⟨h.1, not_mem_zip_keys p ps vs h.2⟩

/-- Claim C4: evaluating an `Apply` node leaves the caller's environment
exactly as it was before the call; the callee, each argument and the
function body are evaluated on independent copies, so no `Define` executed
inside them persists in the caller's environment. -/
theorem apply_preserves_caller_env (fuel : Nat) (fnLit : AST) (args : List AST)
    (env : Env) (r : Object) (env' : Env)
    (h : eval fuel (.Apply fnLit args) env = .ok (r, env')) : env' = env := by
  cases fuel with
  | zero => simp [eval] at h
  | succ fuel =>
      simp only [eval] at h
      repeat' split at h
      all_goals simp_all

/-- Witness for C4: a call whose body reads a caller binding, at concrete
inputs. -/
theorem apply_preserves_caller_env_witness :
    ([("x", Object.Num 1)] : Env) = [("x", Object.Num 1)] :=
  apply_preserves_caller_env 9
    (.Function ["y"] (.Add (.Ident "y") (.Ident "x")))
    [.Num 2] [("x", .Num 1)] (.Num 3) [("x", .Num 1)] (by decide)

/-- Claim C5: `If` truthiness.  `Bool true` and any nonzero `Num` select
`then`; `Bool false` and `Num 0` select `else`; only the selected branch is
evaluated (the result is exactly the selected branch's evaluation in the
post-condition environment); a `Function` condition fails with
`typeMismatch`. -/
theorem if_truthiness (fuel : Nat) (c t e : AST) (env : Env) (cv : Object)
    (env1 : Env) (h : eval fuel c env = .ok (cv, env1)) :
    ((cv = .Bool true ∨ ∃ v, cv = .Num v ∧ v ≠ 0) →
        eval (fuel + 1) (.If c t e) env = eval fuel t env1)
    ∧ ((cv = .Bool false ∨ cv = .Num 0) →
        eval (fuel + 1) (.If c t e) env = eval fuel e env1)
    ∧ (∀ ps b, cv = .Function ps b →
        eval (fuel + 1) (.If c t e) env = .error .typeMismatch) := by
  refine ⟨?_, ?_, ?_⟩
  · rintro (rfl | ⟨v, rfl, hv⟩)
    · simp [eval, h]
    · simp [eval, h, hv]
  · rintro (rfl | rfl) <;> simp [eval, h]
  · rintro ps b rfl
    simp [eval, h]

/-- Witness for C5: the three truthiness behaviours at concrete inputs. -/
theorem if_truthiness_witness :
    (eval 2 (.If (.Num 7) (.Num 1) (.Num 2)) [] = eval 1 (.Num 1) [])
    ∧ (eval 2 (.If (.Bool false) (.Num 1) (.Num 2)) [] = eval 1 (.Num 2) [])
    ∧ (eval 2 (.If (.Function [] (.Num 0)) (.Num 1) (.Num 2)) []
        = .error .typeMismatch) :=
  ⟨(if_truthiness 1 (.Num 7) (.Num 1) (.Num 2) [] (.Num 7) [] (by decide)).1
      (Or.inr ⟨7, rfl, by decide⟩),
   (if_truthiness 1 (.Bool false) (.Num 1) (.Num 2) [] (.Bool false) []
      (by decide)).2.1 (Or.inl rfl),
   (if_truthiness 1 (.Function [] (.Num 0)) (.Num 1) (.Num 2) []
      (.Function [] (.Num 0)) [] (by decide)).2.2 [] (.Num 0) rfl⟩

/-- Claim C6: on numeric literals, `Add` returns the sum and `Minus` returns
the difference when `a ≥ b`, else fails with `numericUnderflow` (erroring,
not saturating), in every environment. -/
theorem add_minus_literals (fuel a b : Nat) (env : Env) :
    eval (fuel + 2) (.Add (.Num a) (.Num b)) env = .ok (.Num (a + b), env)
    ∧ (b ≤ a →
        eval (fuel + 2) (.Minus (.Num a) (.Num b)) env = .ok (.Num (a - b), env))
    ∧ (a < b →
        eval (fuel + 2) (.Minus (.Num a) (.Num b)) env
          = .error .numericUnderflow) := by
  refine ⟨?_, fun hba => ?_, fun hab => ?_⟩
  · simp [eval]
  · simp [eval, Nat.not_lt.mpr hba]
  · simp [eval, hab]

/-- Witness for C6: concrete sums and differences. -/
theorem add_minus_literals_witness :
    eval 5 (.Add (.Num 2) (.Num 3)) [] = .ok (.Num 5, [])
    ∧ eval 5 (.Minus (.Num 7) (.Num 3)) [] = .ok (.Num 4, [])
    ∧ eval 5 (.Minus (.Num 3) (.Num 7)) [] = .error .numericUnderflow :=
  ⟨(add_minus_literals 3 2 3 []).1,
   (add_minus_literals 3 7 3 []).2.1 (by decide),
   (add_minus_literals 3 3 7 []).2.2 (by decide)⟩

/-- Claim C7: `Equal` evaluates the left operand first (the right operand
runs in the left's post-environment), returns `Bool` of the decidable
structural equality of the two results — true iff they are structurally
equal, cross-variant comparisons false and never an error, and equal
`Function` objects (same parameters and body) compare equal. -/
theorem equal_structural (fuel : Nat) (l r : AST) (env : Env)
    (lv : Object) (env1 : Env) (rv : Object) (env2 : Env)
    (hl : eval fuel l env = .ok (lv, env1))
    (hr : eval fuel r env1 = .ok (rv, env2)) :
    eval (fuel + 1) (.Equal l r) env = .ok (.Bool (decide (lv = rv)), env2)
    ∧ (decide (lv = rv) = true ↔ lv = rv)
    ∧ (∀ n b, decide ((Object.Num n : Object) = .Bool b) = false)
    ∧ (∀ ps bd, decide ((Object.Function ps bd : Object) = .Function ps bd)
        = true) := by
  refine ⟨?_, decide_eq_true_iff, fun n b => ?_, fun ps bd => ?_⟩
  · simp [eval, hl, hr]
  · simp
  · simp

/-- Witness for C7: the repo's own `(== 3 (+ 1 2))` test case. -/
theorem equal_structural_witness :
    eval 3 (.Equal (.Num 3) (.Add (.Num 1) (.Num 2))) []
      = .ok (.Bool (decide ((Object.Num 3 : Object) = .Num 3)), []) :=
  (equal_structural 2 (.Num 3) (.Add (.Num 1) (.Num 2)) [] (.Num 3) []
    (.Num 3) [] (by decide) (by decide)).1

/-- Claim C8: `Define` evaluates `value`, inserts the binding into the
environment (silently overwriting an existing binding of the same name,
leaving other bindings untouched) and returns the evaluated value itself. -/
theorem define_semantics (fuel : Nat) (name : String) (value : AST)
    (env : Env) (v : Object) (env1 : Env)
    (h : eval fuel value env = .ok (v, env1)) :
    eval (fuel + 1) (.Define name value) env = .ok (v, envInsert env1 name v)
    ∧ envGet (envInsert env1 name v) name = some v
    ∧ (∀ k, k ≠ name → envGet (envInsert env1 name v) k = envGet env1 k) := by
  refine ⟨by simp [eval, h], envGet_envInsert_self env1 name v,
    fun k hk => envGet_envInsert_ne env1 name k v hk⟩

/-- Witness for C8: redefining `x` silently overwrites the old binding. -/
theorem define_semantics_witness :
    eval 2 (.Define "x" (.Num 1)) [("x", .Num 0)]
      = .ok (.Num 1, envInsert [("x", .Num 0)] "x" (.Num 1))
    ∧ envGet (envInsert [("x", .Num 0)] "x" (.Num 1)) "x" = some (.Num 1) :=
  ⟨(define_semantics 1 "x" (.Num 1) [("x", .Num 0)] (.Num 1) [("x", .Num 0)]
      (by decide)).1,
   (define_semantics 1 "x" (.Num 1) [("x", .Num 0)] (.Num 1) [("x", .Num 0)]
      (by decide)).2.1⟩

/-- Claim C9: if either operand of `Add` or `Minus` evaluates to a non-`Num`
object (a `Bool` or a `Function`), evaluation fails with `typeMismatch`. -/
theorem add_minus_type_mismatch (fuel : Nat) (l r : AST) (env : Env)
    (lv : Object) (env1 : Env) (rv : Object) (env2 : Env)
    (hl : eval fuel l env = .ok (lv, env1))
    (hr : eval fuel r env1 = .ok (rv, env2))
    (hnum : isNum lv = false ∨ isNum rv = false) :
    eval (fuel + 1) (.Add l r) env = .error .typeMismatch
    ∧ eval (fuel + 1) (.Minus l r) env = .error .typeMismatch := by
  constructor <;>
    · simp only [eval, hl, hr]
      cases lv <;> cases rv <;> simp_all [isNum]

/-- Witness for C9: adding or subtracting a boolean fails. -/
theorem add_minus_type_mismatch_witness :
    eval 2 (.Add (.Bool true) (.Num 1)) [] = .error .typeMismatch
    ∧ eval 2 (.Minus (.Bool true) (.Num 1)) [] = .error .typeMismatch :=
  add_minus_type_mismatch 1 (.Bool true) (.Num 1) [] (.Bool true) []
    (.Num 1) [] (by decide) (by decide) (Or.inl (by decide))

/-- Claim C1, code-bug evidence: the spec says a parameter binding takes
precedence over a same-named caller binding, but `deep_env.extend(env.clone())`
replaces the parameter binding with the caller's, so the body sees the
caller's value.  With caller binding `x ↦ 1`, applying `fun x => x` to `2`
returns `1`, not `2`. -/
theorem apply_shadowed_param_sees_caller :
    eval 6 (.Apply (.Function ["x"] (.Ident "x")) [.Num 2]) [("x", .Num 1)]
      = .ok (.Num 1, [("x", .Num 1)])
    ∧ (Object.Num 1 : Object) ≠ .Num 2 := by
  refine ⟨by decide, by decide⟩

/-- Counterexample to claim C3 as stated: applying a two-parameter function
to three arguments does not fail with any arity error — it succeeds,
binding the first two arguments. -/
theorem apply_wrong_arity_no_error :
    eval 6 (.Apply (.Function ["a", "b"] (.Ident "a")) [.Num 1, .Num 2, .Num 3])
      [] = .ok (.Num 1, []) := by decide

/-- Claim C3 as amended: when the argument count differs from the parameter
count, evaluation does not fail with an arity error; it proceeds with the
parameters bound positionally to the first `params.length` evaluated
arguments (the truncated zip of the source). -/
theorem apply_wrong_arity_proceeds_truncated (fuel : Nat) (fnLit : AST)
    (args : List AST) (env : Env) (params : List String) (body : AST)
    (envF : Env)
    (h : eval fuel fnLit env = .ok (.Function params body, envF))
    (_hmis : args.length ≠ params.length) :
    eval (fuel + 1) (.Apply fnLit args) env =
      (match evalArgsWith (eval fuel) (args.take params.length) env with
       | .error e => .error e
       | .ok argVals =>
           match eval fuel body (callEnv params argVals env) with
           | .error e => .error e
           | .ok (v, _) => .ok (v, env)) := by
  simp only [eval, h]
  try rfl

/-- Witness for the amended C3: a two-parameter function applied to one
argument proceeds with the truncated binding. -/
theorem apply_wrong_arity_proceeds_truncated_witness :
    eval 6 (.Apply (.Function ["a", "b"] (.Add (.Ident "a") (.Num 1)))
        [.Num 5]) [] =
      (match evalArgsWith (eval 5) ([AST.Num 5].take 2) [] with
       | .error e => .error e
       | .ok argVals =>
           match eval 5 (.Add (.Ident "a") (.Num 1))
               (callEnv ["a", "b"] argVals []) with
           | .error e => .error e
           | .ok (v, _) => .ok (v, [])) :=
  apply_wrong_arity_proceeds_truncated 5
    (.Function ["a", "b"] (.Add (.Ident "a") (.Num 1))) [.Num 5] []
    ["a", "b"] (.Add (.Ident "a") (.Num 1)) [] (by decide) (by decide)

/-- Claim C10: `Apply` performs no arity check.  Parameters are paired with
arguments positionally up to the shorter sequence: surplus argument
expressions are never evaluated (the whole `Apply` evaluates identically
with them dropped, so their side effects and errors never occur), and a
parameter beyond the argument count is simply absent from the call
environment (its lookup falls through to the caller's environment; a
reference to it in the body fails as an unbound identifier, as the two
concrete conjuncts show). -/
theorem apply_no_arity_check (fuel : Nat) (fnLit : AST) (args : List AST)
    (env : Env) (params : List String) (body : AST) (envF : Env)
    (h : eval fuel fnLit env = .ok (.Function params body, envF)) :
    eval (fuel + 1) (.Apply fnLit args) env
        = eval (fuel + 1) (.Apply fnLit (args.take params.length)) env
    ∧ (∀ (argVals : List Object) (p : String),
        p ∉ params.take argVals.length → (env.map Prod.fst).Nodup →
        envGet (callEnv params argVals env) p = envGet env p)
    ∧ eval 6 (.Apply (.Function ["a"] (.Ident "a")) [.Num 7, .Ident "boom"]) []
        = .ok (.Num 7, [])
    ∧ eval 6 (.Apply (.Function ["a", "b"] (.Ident "b")) [.Num 7]) []
        = .error (.unboundIdentifier "b") := by
  refine ⟨?_, ?_, by decide, by decide⟩
  · simp [eval, h, List.take_take]
  · intro argVals p hp hnd
    have hz := not_mem_zip_keys p params argVals hp
    rw [callEnv, envGet_envExtend env _ p hnd]
    rw [envGet_envExtend_not_mem _ _ _ hz]
    cases envGet env p <;> rfl

/-- Witness for C10: surplus-argument truncation and unmatched-parameter
fall-through at concrete inputs. -/
theorem apply_no_arity_check_witness :
    eval 6 (.Apply (.Function ["a"] (.Ident "a")) [.Num 7, .Ident "boom"]) []
        = eval 6 (.Apply (.Function ["a"] (.Ident "a"))
            ([AST.Num 7, .Ident "boom"].take 1)) []
    ∧ envGet (callEnv ["a", "b"] [.Num 7] [("c", .Num 0)]) "b"
        = envGet [("c", .Num 0)] "b" :=
  ⟨(apply_no_arity_check 5 (.Function ["a"] (.Ident "a"))
      [.Num 7, .Ident "boom"] [] ["a"] (.Ident "a") [] (by decide)).1,
   (apply_no_arity_check 5 (.Function ["a", "b"] (.Ident "b"))
      [.Num 7] [("c", .Num 0)] ["a", "b"] (.Ident "b") [("c", .Num 0)]
      (by decide)).2.1 [.Num 7] "b" (by decide) (by decide)⟩

/-- Step of the divergence argument for claim C2: one recursive activation
of `sum`'s body in `sumLoopEnv` costs three fuel levels and returns to the
very same body and environment, because `callEnv` restores `n ↦ 100`. -/
theorem sum_loop_step (m : Nat)
    (h : eval (m + 2) sumBody sumLoopEnv = .error .outOfFuel) :
    eval (m + 5) sumBody sumLoopEnv = .error .outOfFuel := by
  have hn : envGet sumLoopEnv "n" = some (.Num 100) := by decide
  have hs : envGet sumLoopEnv "sum" = some sumFn := by decide
  have hdec : (decide ((Object.Num 100 : Object) = .Num 1)) = false := by decide
  have hcall : callEnv ["n"] [.Num 99] sumLoopEnv = sumLoopEnv := by decide
  simp [eval, evalArgsWith, hn, hs, hdec, hcall, sumFn] at h ⊢
  rw [h]

/-- Evaluating `sum`'s body in `sumLoopEnv` exhausts every fuel bound: the
recursion never reaches the base case since `n` is reset to `100` on every
call. -/
theorem sumBody_diverges (f : Nat) :
    eval f sumBody sumLoopEnv = .error .outOfFuel := by
  induction f using Nat.strong_induction_on with
  | _ f ih =>
      rcases f with _ | _ | _ | _ | _ | m
      · rfl
      · decide
      · decide
      · decide
      · decide
      · exact sum_loop_step m (ih (m + 2) (by omega))

/-- Claim C2, code-bug evidence: after `Define`-ing `sum` (which yields
exactly `sumEnv`), applying `sum` to `100` does not terminate with
`Num 5050` — it exhausts every fuel bound, because the caller environment's
`n ↦ 100` overwrites each recursive call's fresh parameter binding. -/
theorem sum_apply_100_diverges :
    (∀ fuel : Nat, eval (fuel + 2) (.Define "sum" (.Function ["n"] sumBody)) []
        = .ok (sumFn, sumEnv))
    ∧ (∀ fuel : Nat, eval fuel (.Apply (.Ident "sum") [.Num 100]) sumEnv
        = .error .outOfFuel) := by
  constructor
  · intro fuel
    simp [eval, sumFn, sumEnv, envInsert]
  · intro fuel
    rcases fuel with _ | _ | n
    · rfl
    · decide
    · have hss : envGet sumEnv "sum" = some sumFn := by decide
      have hcall : callEnv ["n"] [.Num 100] sumEnv = sumLoopEnv := by decide
      have hdiv := sumBody_diverges (n + 1)
      simp [eval, evalArgsWith, hss, hcall, sumFn] at hdiv ⊢
      rw [hdiv]

end Risp
